import Mathlib

/-
  Verification development for the go-nonce repository.

  The Go sources (service.go, service.inmem.go, service.sqlx.go) are shallowly
  embedded below.  Go strings are lists of characters, Go time instants are
  integers counting nanoseconds since the unix epoch, uuid values are natural
  numbers (with 0 playing the role of uuid.Nil), the in-memory map is an
  association list from token to record, and the SQL table is a list of rows in
  row order.  The external collaborators sha512 (crypto/sha512) and the random
  salt source are passed in as explicit parameters; base64 (encoding/base64) is
  implemented faithfully.
-/

set_option autoImplicit false

namespace GoNonce

/-- Go strings, modelled as lists of unicode characters (runes). -/
abbrev GoStr := List Char

/-- The five sentinel errors declared at the top of service.go. -/
inductive Err where
  | noToken
  | invalidToken
  | tokenUsed
  | tokenExpired
  | tokenNotFound
deriving DecidableEq

/-- Byte width of a character in UTF-8; Go len(string) counts bytes. -/
def charBytes (c : Char) : Nat :=
  if c.toNat < 128 then 1 else if c.toNat < 2048 then 2
  else if c.toNat < 65536 then 3 else 4

/-- Byte length of a Go string, as computed by len(s). -/
def byteLen (s : GoStr) : Nat := (s.map charBytes).sum

/-- Go unicode.IsSpace: the Unicode White_Space code points. -/
def goIsSpace (c : Char) : Bool :=
  decide (c.toNat = 9 ∨ c.toNat = 10 ∨ c.toNat = 11 ∨ c.toNat = 12 ∨ c.toNat = 13
    ∨ c.toNat = 32 ∨ c.toNat = 133 ∨ c.toNat = 160 ∨ c.toNat = 5760
    ∨ (8192 ≤ c.toNat ∧ c.toNat ≤ 8202) ∨ c.toNat = 8232 ∨ c.toNat = 8233
    ∨ c.toNat = 8239 ∨ c.toNat = 8287 ∨ c.toNat = 12288)

/-- Go strings.TrimSpace: drop leading and trailing white space. -/
def trimSpace (s : GoStr) : GoStr :=
  ((s.dropWhile goIsSpace).reverse.dropWhile goIsSpace).reverse

/-- Nanoseconds in one second; Go time.Second. -/
def nsPerSec : Int := 1000000000

/-- The Nonce model of service.go.  CreatedAt holds unix seconds (int64);
ExpiresAt holds nanoseconds since the unix epoch (time.Time precision).
id and userID model uuid.UUID values, with 0 standing for uuid.Nil. -/
structure Nonce where
  id : Nat
  userID : Nat
  token : GoStr
  action : GoStr
  salt : GoStr
  isUsed : Bool
  isValid : Bool
  createdAt : Int
  expiresAt : Int
deriving DecidableEq

/-- The Go zero value time.Time is January 1 of year 1, which is
-62135596800 seconds before the unix epoch. -/
def goZeroTimeNanos : Int := -62135596800 * 1000000000

/-- The Go zero value Nonce, as produced by the literal used in Get. -/
def zeroNonce : Nonce :=
  { id := 0, userID := 0, token := [], action := [], salt := [],
    isUsed := false, isValid := false, createdAt := 0, expiresAt := goZeroTimeNanos }

/-- Character of a base64 alphabet at a 6-bit index. -/
def b64c (al : List Char) (i : Nat) : Char := al.getD i 'A'

/-- RFC 4648 base64 encoding with padding, as performed by
encoding/base64 EncodeToString for a given alphabet. -/
def base64Encode (al : List Char) : List Nat → List Char
  | [] => []
  | [b1] => [b64c al (b1 / 4), b64c al (b1 % 4 * 16), '=', '=']
  | [b1, b2] => [b64c al (b1 / 4), b64c al (b1 % 4 * 16 + b2 / 16), b64c al (b2 % 16 * 4), '=']
  | b1 :: b2 :: b3 :: rest =>
      b64c al (b1 / 4) :: b64c al (b1 % 4 * 16 + b2 / 16)
        :: b64c al (b2 % 16 * 4 + b3 / 64) :: b64c al (b3 % 64)
        :: base64Encode al rest

/-- Alphabet of base64.StdEncoding. -/
def stdAlphabet : List Char :=
  "ABCDEFGHIJKLMNOPQRSTUVWXYZabcdefghijklmnopqrstuvwxyz0123456789+/".toList

/-- Alphabet of base64.URLEncoding. -/
def urlAlphabet : List Char :=
  "ABCDEFGHIJKLMNOPQRSTUVWXYZabcdefghijklmnopqrstuvwxyz0123456789-_".toList

/-- Decimal rendering of a uuid value, standing in for uuid.UUID.String(). -/
def uuidStr (u : Nat) : GoStr := Nat.toDigits 10 u

/-- Decimal rendering of an integer, as fmt %d prints it. -/
def intStr (i : Int) : GoStr :=
  if i < 0 then '-' :: Nat.toDigits 10 i.natAbs else Nat.toDigits 10 i.natAbs

/-- The string fmt.Sprintf formats in newNonce from the action, the uuid,
the unix second and the (already encoded) salt. -/
def rawTokenStr (action : GoStr) (uid : Nat) (unixSec : Int) (salt : GoStr) : GoStr :=
  action ++ "::".toList ++ uuidStr uid ++ "::".toList ++ intStr unixSec ++ "::".toList ++ salt

/-- The sha512 digest, an external collaborator producing a 64-byte digest;
kept abstract as a function parameter. -/
abbrev Hash := GoStr → List Nat

/-- newNonce of service.go, in the case where the random source succeeded.
rawSalt is the 16-byte output of GenerateRandomKey and tNanos the current
instant in unix nanoseconds. -/
def newNonce (hash : Hash) (action : GoStr) (uid : Nat) (expiresIn : Int)
    (rawSalt : List Nat) (tNanos : Int) : Nonce :=
  let salt := base64Encode stdAlphabet rawSalt
  let unixSec := Int.fdiv tNanos nsPerSec
  let token := base64Encode urlAlphabet (hash (rawTokenStr action uid unixSec salt))
  { id := 0, userID := uid, token := token, action := action, salt := salt,
    isUsed := false, isValid := true, createdAt := unixSec,
    expiresAt := Int.fdiv (tNanos + expiresIn) nsPerSec * nsPerSec }

/-- checkToken of service.go: a basic shape check of the token by length. -/
def checkToken (token : GoStr) : Option Err :=
  if byteLen (trimSpace token) = 0 then some Err.noToken
  else if byteLen token ≠ 88 then some Err.invalidToken
  else none

/-- checkNonce of service.go; now is the current instant in unix nanoseconds. -/
def checkNonce (n : Nonce) (action : GoStr) (uid : Nat) (now : Int) : Option Err :=
  if n.isValid = false ∨ n.action ≠ action ∨ n.userID ≠ uid then some Err.invalidToken
  else if n.isUsed = true then some Err.tokenUsed
  else if ¬ now < n.expiresAt then some Err.tokenExpired
  else none

/-- The in-memory store: the nonceMap of inMemStore, an association list from
token to record, listed in one map iteration order. -/
abbrev Store := List (GoStr × Nonce)

/-- Read of the Go map nonceMap at a key. -/
def lookupStore : Store → GoStr → Option Nonce
  | [], _ => none
  | e :: rest, k => if e.1 = k then some e.2 else lookupStore rest k

/-- Write of the Go map nonceMap at a key (replaces any existing entry). -/
def insertStore (st : Store) (k : GoStr) (v : Nonce) : Store :=
  st.filter (fun e => decide (e.1 ≠ k)) ++ [(k, v)]

/-- getNonce of service.inmem.go. -/
def getNonce (st : Store) (token : GoStr) : Except Err Nonce :=
  match lookupStore st token with
  | some n => Except.ok n
  | none => Except.error Err.tokenNotFound

/-- saveNonce of service.inmem.go.  freshID models the uuid.NewV4() draw
used when the record has no id yet. -/
def saveNonce (st : Store) (freshID : Nat) (n : Nonce) : Nonce × Store :=
  let n2 := if n.id = 0 then { n with id := freshID } else n
  (n2, insertStore st n2.token n2)

/-- The invalidation loop of New in service.inmem.go: set IsValid to false
on every valid entry for the same user and action other than n itself. -/
def invalidateOthers (st : Store) (n : Nonce) : Store :=
  st.map (fun e =>
    if e.2.isValid = true ∧ e.2.userID = n.userID ∧ e.2.action = n.action ∧ e.2.id ≠ n.id
    then (e.1, { e.2 with isValid := false }) else e)

/-- New of service.inmem.go: generate, save, then invalidate every other
valid record for the same user and action. -/
def inMemNew (hash : Hash) (st : Store) (action : GoStr) (uid : Nat) (expiresIn : Int)
    (rawSalt : List Nat) (tNanos : Int) (freshID : Nat) : Nonce × Store :=
  let p := saveNonce st freshID (newNonce hash action uid expiresIn rawSalt tNanos)
  (p.1, invalidateOthers p.2 p.1)

/-- The record New persists: the generated nonce carrying the drawn id. -/
def savedNewNonce (hash : Hash) (action : GoStr) (uid : Nat) (expiresIn : Int)
    (rawSalt : List Nat) (tNanos : Int) (freshID : Nat) : Nonce :=
  { newNonce hash action uid expiresIn rawSalt tNanos with id := freshID }

/-- The record Consume persists: IsUsed set, and an id drawn if absent. -/
def consumedOf (n : Nonce) (freshID : Nat) : Nonce :=
  if n.id = 0 then { n with isUsed := true, id := freshID } else { n with isUsed := true }

/-- Check of service.inmem.go.  The store travels through so that the frame
property is expressible; the body performs no write. -/
def inMemCheck (st : Store) (token action : GoStr) (uid : Nat) (now : Int) :
    Option Err × Store :=
  match checkToken token with
  | some e => (some e, st)
  | none =>
    match getNonce st token with
    | Except.error e => (some e, st)
    | Except.ok n => (checkNonce n action uid now, st)

/-- Consume of service.inmem.go. -/
def inMemConsume (st : Store) (token : GoStr) (freshID : Nat) :
    Except Err Nonce × Store :=
  match checkToken token with
  | some e => (Except.error e, st)
  | none =>
    match getNonce st token with
    | Except.error e => (Except.error e, st)
    | Except.ok n =>
      if n.isUsed = true then (Except.error Err.tokenUsed, st)
      else
        let p := saveNonce st freshID { n with isUsed := true }
        (Except.ok p.1, p.2)

/-- CheckThenConsume of service.inmem.go. -/
def inMemCheckThenConsume (st : Store) (token action : GoStr) (uid : Nat)
    (now : Int) (freshID : Nat) : Except Err Nonce × Store :=
  match (inMemCheck st token action uid now).1 with
  | some e => (Except.error e, st)
  | none => inMemConsume st token freshID

/-- The records of the map whose Action and UserID match, in iteration order;
the loop of Get in service.inmem.go appends exactly these. -/
def getMatches (st : Store) (action : GoStr) (uid : Nat) : List Nonce :=
  st.filterMap (fun e => if e.2.action = action ∧ e.2.userID = uid then some e.2 else none)

/-- The selection loop of Get in service.inmem.go: newestN starts at init and
is replaced by any later element that is valid and strictly newer. -/
def selNewest (init : Nonce) (l : List Nonce) : Nonce :=
  l.foldl (fun best n => if best.createdAt < n.createdAt ∧ n.isValid = true then n else best) init

/-- Get of service.inmem.go.  Note the slice is created by make with length 1,
so it starts holding one zero-value Nonce in front of the matches. -/
def inMemGet (st : Store) (action : GoStr) (uid : Nat) : Except Err Nonce :=
  if (zeroNonce :: getMatches st action uid).length = 0 then Except.error Err.tokenNotFound
  else if (zeroNonce :: getMatches st action uid).length = 1 then
    Except.ok ((zeroNonce :: getMatches st action uid).headD zeroNonce)
  else if (selNewest ((zeroNonce :: getMatches st action uid).headD zeroNonce)
      (zeroNonce :: getMatches st action uid)).isValid = false then
    Except.error Err.tokenNotFound
  else
    Except.ok (selNewest ((zeroNonce :: getMatches st action uid).headD zeroNonce)
      (zeroNonce :: getMatches st action uid))

/-- One pass of the loop body of removeExpired in service.inmem.go:
delete every entry whose ExpiresAt is before now. -/
def removeExpiredStep (st : Store) (now : Int) : Store :=
  st.filter (fun e => decide (¬ e.2.expiresAt < now))

/-- The SQL table of the sqlx service, a list of rows in row order. -/
abbrev Table := List Nonce

/-- The db.Get call with SELECT * FROM nonce WHERE token equals the argument:
the first matching row, or none (sql.ErrNoRows). -/
def sqlSelectByToken : Table → GoStr → Option Nonce
  | [], _ => none
  | r :: rest, token => if r.token = token then some r else sqlSelectByToken rest token

/-- The UPDATE of New in service.sqlx.go: set is_valid to 0 on every valid
row for the same user and action whose id differs from n. -/
def invalidateRows (tbl : Table) (n : Nonce) : Table :=
  tbl.map (fun r =>
    if r.isValid = true ∧ r.userID = n.userID ∧ r.action = n.action ∧ r.id ≠ n.id
    then { r with isValid := false } else r)

/-- New of service.sqlx.go: INSERT the generated record, then UPDATE
is_valid to 0 on every other valid row for the same user and action. -/
def sqlxNew (hash : Hash) (tbl : Table) (action : GoStr) (uid : Nat) (expiresIn : Int)
    (rawSalt : List Nat) (tNanos : Int) (freshID : Nat) : Nonce × Table :=
  let n0 := newNonce hash action uid expiresIn rawSalt tNanos
  let n := if n0.id = 0 then { n0 with id := freshID } else n0
  (n, invalidateRows (tbl ++ [n]) n)

/-- Check of service.sqlx.go. -/
def sqlxCheck (tbl : Table) (token action : GoStr) (uid : Nat) (now : Int) :
    Option Err × Table :=
  match checkToken token with
  | some e => (some e, tbl)
  | none =>
    match sqlSelectByToken tbl token with
    | none => (some Err.tokenNotFound, tbl)
    | some n => (checkNonce n action uid now, tbl)

/-- The UPDATE statement of Consume in service.sqlx.go: set is_used to 1 on
every row holding the token. -/
def markUsed (tbl : Table) (token : GoStr) : Table :=
  tbl.map (fun r => if r.token = token then { r with isUsed := true } else r)

/-- Consume of service.sqlx.go. -/
def sqlxConsume (tbl : Table) (token : GoStr) : Except Err Nonce × Table :=
  match checkToken token with
  | some e => (Except.error e, tbl)
  | none =>
    match sqlSelectByToken tbl token with
    | none => (Except.error Err.tokenNotFound, tbl)
    | some n =>
      if n.isUsed = true then (Except.error Err.tokenUsed, tbl)
      else (Except.ok { n with isUsed := true }, markUsed tbl token)

/-- CheckThenConsume of service.sqlx.go. -/
def sqlxCheckThenConsume (tbl : Table) (token action : GoStr) (uid : Nat)
    (now : Int) : Except Err Nonce × Table :=
  match (sqlxCheck tbl token action uid now).1 with
  | some e => (Except.error e, tbl)
  | none => sqlxConsume tbl token

/-- Get of service.sqlx.go: the db.Get of SELECT with is_valid equal 1 and
LIMIT 1, that is the first valid matching row in row order. -/
def sqlxGet (tbl : Table) (action : GoStr) (uid : Nat) : Except Err Nonce :=
  match (tbl.filter (fun r =>
      decide (r.action = action ∧ r.userID = uid ∧ r.isValid = true))).head? with
  | some n => Except.ok n
  | none => Except.error Err.tokenNotFound

/-- One pass of the loop body of removeExpired in service.sqlx.go:
DELETE FROM nonce WHERE expires_at is before now. -/
def sqlxRemoveExpiredStep (tbl : Table) (now : Int) : Table :=
  tbl.filter (fun r => decide (¬ r.expiresAt < now))

/-- State of the removeExpired goroutine: still in its select loop, or
returned after receiving from the quit channel. -/
inductive SweeperState where
  | running
  | exited
deriving DecidableEq

/-- The unbuffered quit channel together with its sole receiver, the sweeper
goroutine.  pending counts Shutdown callers currently blocked in their send on
quit; delivered counts sends that have completed.  A send on an unbuffered Go
channel completes only when a receiver takes it. -/
structure SweeperSys where
  sweeper : SweeperState
  pending : Nat
  delivered : Nat
deriving DecidableEq

/-- One scheduling step of the sweeper.  At the top of its loop the select
either receives a pending quit signal and returns, or takes the default
branch (sweep and sleep), leaving the channel untouched.  After the goroutine
has returned nothing ever receives from quit again. -/
def sweeperStep (s : SweeperSys) : SweeperSys :=
  match s.sweeper, s.pending with
  | SweeperState.running, p + 1 =>
      { sweeper := SweeperState.exited, pending := p, delivered := s.delivered + 1 }
  | SweeperState.running, 0 => s
  | SweeperState.exited, _ => s

/-- Iterate the sweeper k scheduling steps. -/
def sweeperRun (s : SweeperSys) : Nat → SweeperSys
  | 0 => s
  | k + 1 => sweeperRun (sweeperStep s) k

/-- Sample action string used in concrete instances. -/
def actA : GoStr := "reset".toList

/-- A well-shaped 88-byte token of ASCII characters. -/
def tok88 : GoStr := List.replicate 88 'x'

/-- A second well-shaped 88-byte token. -/
def tok88b : GoStr := List.replicate 88 'y'

/-- A concrete stand-in digest function for witnesses: 64 zero bytes. -/
def hashZ : Hash := fun _ => List.replicate 64 0

/-- A concrete 16-byte salt for witnesses. -/
def saltZ : List Nat := List.replicate 16 0

/-- A valid, older record for the pair (actA, 7). -/
def nOldValid : Nonce :=
  { id := 1, userID := 7, token := tok88, action := actA, salt := [],
    isUsed := false, isValid := true, createdAt := 100, expiresAt := 0 }

/-- An invalidated, newer record for the pair (actA, 7). -/
def nNewInvalid : Nonce :=
  { id := 2, userID := 7, token := tok88b, action := actA, salt := [],
    isUsed := false, isValid := false, createdAt := 200, expiresAt := 0 }

/-- A valid, newer record for the pair (actA, 7). -/
def nNewValid : Nonce :=
  { id := 3, userID := 7, token := tok88b, action := actA, salt := [],
    isUsed := false, isValid := true, createdAt := 300, expiresAt := 0 }

/-- An unused record that is superseded (invalid) and expired. -/
def nSuperseded : Nonce :=
  { id := 4, userID := 7, token := tok88, action := actA, salt := [],
    isUsed := false, isValid := false, createdAt := 50, expiresAt := 0 }

/-- An already used, otherwise valid record. -/
def nUsed : Nonce :=
  { id := 5, userID := 7, token := tok88, action := actA, salt := [],
    isUsed := true, isValid := true, createdAt := 50, expiresAt := 1000 }

/-- A fresh active record: valid, unused, not yet expired at instant 5. -/
def nFresh : Nonce :=
  { id := 6, userID := 7, token := tok88, action := actA, salt := [],
    isUsed := false, isValid := true, createdAt := 50, expiresAt := 1000 }

/-- Every character occupies at least one byte. -/
theorem charBytes_pos (c : Char) : 0 < charBytes c := by
  unfold charBytes
  split
  · norm_num
  split
  · norm_num
  split
  · norm_num
  · norm_num

/-- A Go string has byte length zero exactly when it is empty. -/
theorem byteLen_eq_zero_iff (s : GoStr) : byteLen s = 0 ↔ s = [] := by
  cases s with
  | nil => simp [byteLen]
  | cons c rest =>
    simp only [byteLen, List.map_cons, List.sum_cons]
    constructor
    · intro h
      have hc := charBytes_pos c
      omega
    · intro h
      exact absurd h (List.cons_ne_nil c rest)

/-- TrimSpace returns the empty string exactly when every character of the
input is white space (in particular when the input is empty). -/
theorem trimSpace_eq_nil_iff (s : GoStr) :
    trimSpace s = [] ↔ ∀ c ∈ s, goIsSpace c = true := by
  unfold trimSpace
  rw [List.reverse_eq_nil_iff, List.dropWhile_eq_nil_iff]
  constructor
  · intro h c hc
    have hsplit := List.takeWhile_append_dropWhile (p := goIsSpace) (l := s)
    rw [← hsplit] at hc
    rcases List.mem_append.mp hc with h1 | h2
    · exact List.mem_takeWhile_imp h1
    · exact h _ (List.mem_reverse.mpr h2)
  · intro h c hc
    have hc2 : c ∈ s.dropWhile goIsSpace := List.mem_reverse.mp hc
    exact h c ((List.dropWhile_sublist goIsSpace).subset hc2)

/-- checkToken on a blank token (empty or all white space) is the
no-token error. -/
theorem checkToken_blank (s : GoStr) (h : ∀ c ∈ s, goIsSpace c = true) :
    checkToken s = some Err.noToken := by
  unfold checkToken
  rw [if_pos]
  rw [byteLen_eq_zero_iff, trimSpace_eq_nil_iff]
  exact h

/-- checkToken on a non-blank token whose byte length is not 88 is the
invalid-token error. -/
theorem checkToken_nonblank (s : GoStr) (h : ¬ ∀ c ∈ s, goIsSpace c = true)
    (h88 : byteLen s ≠ 88) : checkToken s = some Err.invalidToken := by
  unfold checkToken
  rw [if_neg, if_pos h88]
  rw [byteLen_eq_zero_iff, trimSpace_eq_nil_iff]
  exact h

/-- Length of a base64 encoding: four output characters for every started
group of three input bytes. -/
theorem base64Encode_length (al : List Char) :
    ∀ l : List Nat, (base64Encode al l).length = 4 * ((l.length + 2) / 3)
  | [] => by simp [base64Encode]
  | [b1] => by simp [base64Encode]
  | [b1, b2] => by simp [base64Encode]
  | b1 :: b2 :: b3 :: rest => by
    have ih := base64Encode_length al rest
    simp only [base64Encode, List.length_cons, ih]
    have h3 : rest.length + 1 + 1 + 1 + 2 = (rest.length + 2) + 3 := by omega
    rw [h3, Nat.add_div_right _ (by norm_num)]
    ring

/-- Adding a whole number of seconds commutes with flooring to the second. -/
theorem fdiv_add_whole_sec (t k : Int) :
    Int.fdiv (t + k * nsPerSec) nsPerSec = Int.fdiv t nsPerSec + k := by
  rw [Int.fdiv_eq_ediv _ (by norm_num [nsPerSec]),
    Int.fdiv_eq_ediv _ (by norm_num [nsPerSec]),
    Int.add_mul_ediv_right _ _ (by norm_num [nsPerSec])]

/-- lookupStore misses exactly when no entry bears the key. -/
theorem lookupStore_eq_none_iff (st : Store) (k : GoStr) :
    lookupStore st k = none ↔ ∀ e ∈ st, e.1 ≠ k := by
  induction st with
  | nil => simp [lookupStore]
  | cons e rest ih =>
    rw [lookupStore]
    by_cases he : e.1 = k
    · rw [if_pos he]
      constructor
      · intro h
        exact absurd h (by simp)
      · intro h
        exact absurd he (h e (List.mem_cons_self e rest))
    · rw [if_neg he, ih]
      constructor
      · intro h e2 he2
        rcases List.mem_cons.mp he2 with h1 | h1
        · rw [h1]
          exact he
        · exact h e2 h1
      · intro h e2 he2
        exact h e2 (List.mem_cons_of_mem _ he2)

/-- A successful lookupStore returns a stored entry. -/
theorem lookupStore_mem (st : Store) (k : GoStr) (v : Nonce) :
    lookupStore st k = some v → (k, v) ∈ st := by
  induction st with
  | nil =>
    intro h
    exact absurd h (by simp [lookupStore])
  | cons e rest ih =>
    intro h
    rw [lookupStore] at h
    by_cases he : e.1 = k
    · rw [if_pos he] at h
      have hv : e.2 = v := by injection h
      have he2 : e = (k, v) := by
        obtain ⟨a, b⟩ := e
        simp only at he hv
        rw [he, hv]
      rw [← he2]
      exact List.mem_cons_self _ _
    · rw [if_neg he] at h
      exact List.mem_cons_of_mem _ (ih h)

/-- Looking up the key just written returns the value just written. -/
theorem lookupStore_insert (st : Store) (k : GoStr) (v : Nonce) :
    lookupStore (insertStore st k v) k = some v := by
  unfold insertStore
  induction st with
  | nil => simp [lookupStore]
  | cons e rest ih =>
    rw [List.filter_cons]
    by_cases he : e.1 = k
    · have hd : (decide (e.1 ≠ k)) = false := by simp [he]
      rw [hd]
      simpa using ih
    · have hd : (decide (e.1 ≠ k)) = true := by simp [he]
      rw [hd]
      simp only [if_true, List.cons_append, lookupStore, if_neg he]
      exact ih

/-- Membership in the map after a write. -/
theorem insertStore_mem_iff (st : Store) (k : GoStr) (v : Nonce) (e : GoStr × Nonce) :
    e ∈ insertStore st k v ↔ (e ∈ st ∧ e.1 ≠ k) ∨ e = (k, v) := by
  unfold insertStore
  simp [List.mem_filter]

/-- Distinct keys make the entry for a key unique. -/
theorem store_key_unique (st : Store) (k : GoStr) (v1 v2 : Nonce)
    (hnd : (st.map Prod.fst).Nodup) (h1 : (k, v1) ∈ st) (h2 : (k, v2) ∈ st) :
    v1 = v2 := by
  induction st with
  | nil => simp at h1
  | cons e rest ih =>
    rw [List.map_cons, List.nodup_cons] at hnd
    rcases List.mem_cons.mp h1 with he1 | he1 <;> rcases List.mem_cons.mp h2 with he2 | he2
    · rw [← he1] at he2
      exact (Prod.mk.injEq _ _ _ _ |>.mp he2).2.symm
    · exfalso
      apply hnd.1
      rw [← he1]
      exact List.mem_map.mpr ⟨_, he2, rfl⟩
    · exfalso
      apply hnd.1
      rw [← he2]
      exact List.mem_map.mpr ⟨_, he1, rfl⟩
    · exact ih hnd.2 he1 he2

/-- After deleting the unique entry of a key, lookups of that key miss. -/
theorem lookupStore_filter_none (st : Store) (k : GoStr) (v : Nonce)
    (p : GoStr × Nonce → Bool)
    (hnd : (st.map Prod.fst).Nodup) (hmem : (k, v) ∈ st) (hp : p (k, v) = false) :
    lookupStore (st.filter p) k = none := by
  rw [lookupStore_eq_none_iff]
  intro e he hek
  rw [List.mem_filter] at he
  have : e.2 = v := by
    have : e = (k, e.2) := by
      cases e
      simp_all
    rw [this] at he
    exact store_key_unique st k e.2 v hnd he.1 hmem
  have he2 : e = (k, v) := by
    cases e
    simp_all
  rw [he2] at he
  rw [hp] at he
  exact absurd he.2 (by simp)

/-- Unfolding of the selection loop over one element. -/
theorem selNewest_cons (b x : Nonce) (xs : List Nonce) :
    selNewest b (x :: xs)
      = selNewest (if b.createdAt < x.createdAt ∧ x.isValid = true then x else b) xs := rfl

/-- When no element is valid the selection loop keeps its start value. -/
theorem selNewest_all_invalid (l : List Nonce) :
    ∀ b : Nonce, (∀ n ∈ l, n.isValid = false) → selNewest b l = b := by
  induction l with
  | nil =>
    intro b _
    rfl
  | cons x xs ih =>
    intro b h
    rw [selNewest_cons]
    have hx : x.isValid = false := h x (List.mem_cons_self _ _)
    rw [if_neg (by simp [hx])]
    exact ih b (fun n hn => h n (List.mem_cons_of_mem _ hn))

/-- Invariant of the selection loop: the result is at least as new as the
start value, is either the start value or a valid listed element, and is at
least as new as every valid listed element. -/
theorem selNewest_spec (l : List Nonce) :
    ∀ b : Nonce,
      b.createdAt ≤ (selNewest b l).createdAt
      ∧ (selNewest b l = b ∨ (selNewest b l ∈ l ∧ (selNewest b l).isValid = true))
      ∧ (∀ n ∈ l, n.isValid = true → n.createdAt ≤ (selNewest b l).createdAt) := by
  induction l with
  | nil =>
    intro b
    refine ⟨le_refl _, Or.inl rfl, ?_⟩
    intro n hn
    exact absurd hn (List.not_mem_nil n)
  | cons x xs ih =>
    intro b
    rw [selNewest_cons]
    by_cases hx : b.createdAt < x.createdAt ∧ x.isValid = true
    · rw [if_pos hx]
      obtain ⟨ih1, ih2, ih3⟩ := ih x
      refine ⟨le_trans (le_of_lt hx.1) ih1, ?_, ?_⟩
      · rcases ih2 with h | h
        · refine Or.inr ⟨?_, ?_⟩
          · rw [h]
            exact List.mem_cons_self _ _
          · rw [h]
            exact hx.2
        · exact Or.inr ⟨List.mem_cons_of_mem _ h.1, h.2⟩
      · intro n hn hv
        rcases List.mem_cons.mp hn with h | h
        · rw [h]
          exact ih1
        · exact ih3 n h hv
    · rw [if_neg hx]
      obtain ⟨ih1, ih2, ih3⟩ := ih b
      refine ⟨ih1, ?_, ?_⟩
      · rcases ih2 with h | h
        · exact Or.inl h
        · exact Or.inr ⟨List.mem_cons_of_mem _ h.1, h.2⟩
      · intro n hn hv
        rcases List.mem_cons.mp hn with h | h
        · subst h
          have hnl : ¬ b.createdAt < n.createdAt := fun hlt => hx ⟨hlt, hv⟩
          exact le_trans (le_of_not_lt hnl) ih1
        · exact ih3 n h hv

/-- The SELECT by token misses exactly when no row bears the token. -/
theorem sqlSelect_eq_none_iff (tbl : Table) (token : GoStr) :
    sqlSelectByToken tbl token = none ↔ ∀ r ∈ tbl, r.token ≠ token := by
  induction tbl with
  | nil => simp [sqlSelectByToken]
  | cons r rest ih =>
    rw [sqlSelectByToken]
    by_cases hr : r.token = token
    · rw [if_pos hr]
      constructor
      · intro h
        exact absurd h (by simp)
      · intro h
        exact absurd hr (h r (List.mem_cons_self r rest))
    · rw [if_neg hr, ih]
      constructor
      · intro h r2 hr2
        rcases List.mem_cons.mp hr2 with h1 | h1
        · rw [h1]
          exact hr
        · exact h r2 h1
      · intro h r2 hr2
        exact h r2 (List.mem_cons_of_mem _ hr2)

/-- A successful SELECT by token returns a stored row bearing the token. -/
theorem sqlSelect_mem (tbl : Table) (token : GoStr) (n : Nonce) :
    sqlSelectByToken tbl token = some n → n ∈ tbl ∧ n.token = token := by
  induction tbl with
  | nil =>
    intro h
    exact absurd h (by simp [sqlSelectByToken])
  | cons r rest ih =>
    intro h
    rw [sqlSelectByToken] at h
    by_cases hr : r.token = token
    · rw [if_pos hr] at h
      have : r = n := by injection h
      subst this
      exact ⟨List.mem_cons_self _ _, hr⟩
    · rw [if_neg hr] at h
      obtain ⟨h1, h2⟩ := ih h
      exact ⟨List.mem_cons_of_mem _ h1, h2⟩

/-- SELECT by token after the consume UPDATE: the found row, used. -/
theorem sqlSelect_markUsed (tbl : Table) (token : GoStr) :
    sqlSelectByToken (markUsed tbl token) token
      = (sqlSelectByToken tbl token).map (fun r => { r with isUsed := true }) := by
  induction tbl with
  | nil => rfl
  | cons r rest ih =>
    rw [markUsed, List.map_cons]
    by_cases hr : r.token = token
    · rw [if_pos hr, sqlSelectByToken, sqlSelectByToken,
        if_pos (show ({ r with isUsed := true } : Nonce).token = token from hr),
        if_pos hr]
      rfl
    · rw [if_neg hr, sqlSelectByToken, sqlSelectByToken, if_neg hr, if_neg hr]
      simpa [markUsed] using ih

/-- Distinct tokens make the row for a token unique. -/
theorem table_token_unique (tbl : Table) (r1 r2 : Nonce)
    (hnd : (tbl.map Nonce.token).Nodup) (h1 : r1 ∈ tbl) (h2 : r2 ∈ tbl)
    (htok : r1.token = r2.token) : r1 = r2 := by
  induction tbl with
  | nil => simp at h1
  | cons r rest ih =>
    rw [List.map_cons, List.nodup_cons] at hnd
    rcases List.mem_cons.mp h1 with he1 | he1 <;> rcases List.mem_cons.mp h2 with he2 | he2
    · rw [he1, he2]
    · exfalso
      apply hnd.1
      rw [← he1, htok]
      exact List.mem_map.mpr ⟨_, he2, rfl⟩
    · exfalso
      apply hnd.1
      rw [← he2, ← htok]
      exact List.mem_map.mpr ⟨_, he1, rfl⟩
    · exact ih hnd.2 he1 he2

/-- After deleting the unique row of a token, SELECT by that token misses. -/
theorem sqlSelect_filter_none (tbl : Table) (r : Nonce) (p : Nonce → Bool)
    (hnd : (tbl.map Nonce.token).Nodup) (hmem : r ∈ tbl) (hp : p r = false) :
    sqlSelectByToken (tbl.filter p) r.token = none := by
  rw [sqlSelect_eq_none_iff]
  intro r2 hr2 htok
  rw [List.mem_filter] at hr2
  have he : r2 = r := table_token_unique tbl r2 r hnd hr2.1 hmem htok
  rw [he, hp] at hr2
  exact absurd hr2.2 (by simp)

/-- The head of a filter is the first element satisfying the predicate. -/
theorem filter_head_eq_find (p : Nonce → Bool) (l : List Nonce) :
    (l.filter p).head? = l.find? p := by
  induction l with
  | nil => rfl
  | cons x xs ih =>
    rw [List.filter_cons, List.find?_cons]
    by_cases hx : p x = true
    · rw [hx]
      simp
    · rw [Bool.not_eq_true] at hx
      rw [hx]
      simp only [Bool.false_eq_true, if_false]
      exact ih

/-- Any shape-check failure short-circuits every token operation of both
backends, returning the same error and the untouched store. -/
theorem ops_short_circuit (token : GoStr) (e : Err) (h : checkToken token = some e)
    (st : Store) (tbl : Table) (action : GoStr) (uid : Nat) (now : Int) (freshID : Nat) :
    inMemCheck st token action uid now = (some e, st)
    ∧ inMemConsume st token freshID = (Except.error e, st)
    ∧ inMemCheckThenConsume st token action uid now freshID = (Except.error e, st)
    ∧ sqlxCheck tbl token action uid now = (some e, tbl)
    ∧ sqlxConsume tbl token = (Except.error e, tbl)
    ∧ sqlxCheckThenConsume tbl token action uid now = (Except.error e, tbl) := by
  have h1 : inMemCheck st token action uid now = (some e, st) := by
    unfold inMemCheck
    rw [h]
  have h4 : sqlxCheck tbl token action uid now = (some e, tbl) := by
    unfold sqlxCheck
    rw [h]
  refine ⟨h1, ?_, ?_, h4, ?_, ?_⟩
  · unfold inMemConsume
    rw [h]
  · unfold inMemCheckThenConsume
    rw [h1]
  · unfold sqlxConsume
    rw [h]
  · unfold sqlxCheckThenConsume
    rw [h4]

/-- Claim C9: Check never mutates the store: the in-memory map and the SQL
table coming out of any Check call are exactly the ones passed in, on success
and on every error path alike. -/
theorem c9_check_never_mutates (st : Store) (tbl : Table) (token action : GoStr)
    (uid : Nat) (now : Int) :
    (inMemCheck st token action uid now).2 = st
    ∧ (sqlxCheck tbl token action uid now).2 = tbl := by
  constructor
  · unfold inMemCheck
    split
    · rfl
    · split <;> rfl
  · unfold sqlxCheck
    split
    · rfl
    · split <;> rfl

/-- Claim C3: for a stored nonce found by Check the checks apply in a fixed
order: a false IsValid, a mismatched Action or a mismatched UserID give the
one invalid-token error; then IsUsed gives the used-token error; then an
ExpiresAt not after the current time gives the expired error; otherwise the
check succeeds.  Check applies exactly this checkNonce to the found record. -/
theorem c3_fixed_order_checks (n : Nonce) (action : GoStr) (uid : Nat) (now : Int)
    (st : Store) (token : GoStr) :
    ((n.isValid = false ∨ n.action ≠ action ∨ n.userID ≠ uid) →
        checkNonce n action uid now = some Err.invalidToken)
    ∧ (n.isValid = true → n.action = action → n.userID = uid → n.isUsed = true →
        checkNonce n action uid now = some Err.tokenUsed)
    ∧ (n.isValid = true → n.action = action → n.userID = uid → n.isUsed = false →
        ¬ now < n.expiresAt → checkNonce n action uid now = some Err.tokenExpired)
    ∧ (n.isValid = true → n.action = action → n.userID = uid → n.isUsed = false →
        now < n.expiresAt → checkNonce n action uid now = none)
    ∧ (checkToken token = none → lookupStore st token = some n →
        (inMemCheck st token action uid now).1 = checkNonce n action uid now) := by
  refine ⟨?_, ?_, ?_, ?_, ?_⟩
  · intro h
    unfold checkNonce
    rw [if_pos h]
  · intro h1 h2 h3 h4
    unfold checkNonce
    rw [if_neg (by simp [h1, h2, h3]), if_pos h4]
  · intro h1 h2 h3 h4 h5
    unfold checkNonce
    rw [if_neg (by simp [h1, h2, h3]), if_neg (by simp [h4]), if_pos h5]
  · intro h1 h2 h3 h4 h5
    unfold checkNonce
    rw [if_neg (by simp [h1, h2, h3]), if_neg (by simp [h4]), if_neg (by simp [h5])]
  · intro h1 h2
    unfold inMemCheck getNonce
    rw [h1, h2]

/-- Witness for C3 at concrete records, one per branch, plus the Check link
through a singleton store. -/
theorem c3_fixed_order_checks_witness :
    checkNonce nNewInvalid actA 7 5 = some Err.invalidToken
    ∧ checkNonce nUsed actA 7 5 = some Err.tokenUsed
    ∧ checkNonce nOldValid actA 7 5 = some Err.tokenExpired
    ∧ checkNonce nFresh actA 7 5 = none
    ∧ (inMemCheck ((tok88, nFresh) :: []) tok88 actA 7 5).1 = checkNonce nFresh actA 7 5 :=
  ⟨(c3_fixed_order_checks nNewInvalid actA 7 5 [] []).1 (by decide),
   (c3_fixed_order_checks nUsed actA 7 5 [] []).2.1 rfl rfl rfl rfl,
   (c3_fixed_order_checks nOldValid actA 7 5 [] []).2.2.1 rfl rfl rfl rfl (by decide),
   (c3_fixed_order_checks nFresh actA 7 5 [] []).2.2.2.1 rfl rfl rfl rfl (by decide),
   (c3_fixed_order_checks nFresh actA 7 5 ((tok88, nFresh) :: []) tok88).2.2.2.2
     (by decide) (by decide)⟩

/-- Claim C7 (the code violates it): after the sweeper goroutine has exited,
a Shutdown send pending on the unbuffered quit channel is never delivered,
whatever the number of further scheduling steps — the caller blocks forever.
By contrast, from the running state one pending send is delivered in one
step, after which the sweeper is exited: only the first Shutdown returns. -/
theorem c7_second_shutdown_never_delivered (p d k : Nat) :
    sweeperRun { sweeper := SweeperState.exited, pending := p, delivered := d } k
      = { sweeper := SweeperState.exited, pending := p, delivered := d }
    ∧ sweeperRun { sweeper := SweeperState.running, pending := 1, delivered := d } (k + 1)
      = { sweeper := SweeperState.exited, pending := 0, delivered := d + 1 } := by
  have hstay : ∀ (k2 p2 d2 : Nat),
      sweeperRun { sweeper := SweeperState.exited, pending := p2, delivered := d2 } k2
        = { sweeper := SweeperState.exited, pending := p2, delivered := d2 } := by
    intro k2
    induction k2 with
    | zero =>
      intro p2 d2
      rfl
    | succ m ih =>
      intro p2 d2
      rw [sweeperRun]
      exact ih p2 d2
  constructor
  · exact hstay k p d
  · rw [sweeperRun]
    exact hstay k 0 (d + 1)

/-- Claim C10: token derivation is deterministic in action, user, current
second and salt: two generation runs agreeing on those yield the same token,
namely the URL-safe base64 encoding of the digest of the formatted string
built from action, uid, unix second and encoded salt. -/
theorem c10_token_deterministic (hash : Hash) (action : GoStr) (uid : Nat)
    (d1 d2 : Int) (rawSalt : List Nat) (t1 t2 : Int)
    (h : Int.fdiv t1 nsPerSec = Int.fdiv t2 nsPerSec) :
    (newNonce hash action uid d1 rawSalt t1).token
      = (newNonce hash action uid d2 rawSalt t2).token
    ∧ (newNonce hash action uid d1 rawSalt t1).token
      = base64Encode urlAlphabet (hash (rawTokenStr action uid (Int.fdiv t1 nsPerSec)
          (base64Encode stdAlphabet rawSalt))) := by
  constructor
  · simp only [newNonce]
    rw [h]
  · rfl

/-- Witness for C10: two instants in the same second, different expiry
durations, same salt. -/
theorem c10_token_deterministic_witness :
    (newNonce hashZ actA 7 60000000000 saltZ 1500000000).token
      = (newNonce hashZ actA 7 0 saltZ 1999999999).token
    ∧ (newNonce hashZ actA 7 60000000000 saltZ 1500000000).token
      = base64Encode urlAlphabet (hashZ (rawTokenStr actA 7 (Int.fdiv 1500000000 nsPerSec)
          (base64Encode stdAlphabet saltZ))) :=
  c10_token_deterministic hashZ actA 7 60000000000 0 saltZ 1500000000 1999999999 (by decide)

/-- Claim C5 (amended): when the random source succeeds New returns a token
of exactly 88 characters, IsUsed false, IsValid true, CreatedAt the current
unix second, and ExpiresAt the precise creation instant plus expiresIn,
truncated to whole seconds; when expiresIn is a whole number of seconds this
equals CreatedAt + expiresIn exactly. -/
theorem c5_new_shape (hash : Hash) (action : GoStr) (uid : Nat) (d : Int)
    (rawSalt : List Nat) (t : Int) (hlen : ∀ s, (hash s).length = 64) :
    (newNonce hash action uid d rawSalt t).token.length = 88
    ∧ (newNonce hash action uid d rawSalt t).isUsed = false
    ∧ (newNonce hash action uid d rawSalt t).isValid = true
    ∧ (newNonce hash action uid d rawSalt t).createdAt = Int.fdiv t nsPerSec
    ∧ (newNonce hash action uid d rawSalt t).expiresAt
        = Int.fdiv (t + d) nsPerSec * nsPerSec
    ∧ (d % nsPerSec = 0 →
        (newNonce hash action uid d rawSalt t).expiresAt
          = (newNonce hash action uid d rawSalt t).createdAt * nsPerSec + d) := by
  refine ⟨?_, rfl, rfl, rfl, rfl, ?_⟩
  · simp only [newNonce]
    rw [base64Encode_length, hlen]
  · intro hd
    have hk : d = d / nsPerSec * nsPerSec :=
      (Int.ediv_mul_cancel (Int.dvd_of_emod_eq_zero hd)).symm
    simp only [newNonce]
    rw [hk, fdiv_add_whole_sec]
    ring

/-- Counterexample to C5 as stated: at creation instant 1.5s with expiresIn
0.6s the code truncates the sum of the precise instant and the duration,
yielding second 2, while CreatedAt + expiresIn truncated to whole seconds is
second 1 (and untruncated it is 1.6s): ExpiresAt matches neither reading. -/
theorem c5_counterexample :
    (newNonce hashZ actA 7 600000000 saltZ 1500000000).expiresAt = 2000000000
    ∧ (newNonce hashZ actA 7 600000000 saltZ 1500000000).createdAt = 1
    ∧ ¬ (newNonce hashZ actA 7 600000000 saltZ 1500000000).expiresAt
        = Int.fdiv ((newNonce hashZ actA 7 600000000 saltZ 1500000000).createdAt * nsPerSec
            + 600000000) nsPerSec * nsPerSec
    ∧ ¬ (newNonce hashZ actA 7 600000000 saltZ 1500000000).expiresAt
        = (newNonce hashZ actA 7 600000000 saltZ 1500000000).createdAt * nsPerSec + 600000000 :=
  ⟨rfl, rfl, by decide, by decide⟩

/-- Witness for C5 with a concrete digest function, salt and instant, and a
whole-second expiry of one minute. -/
theorem c5_new_shape_witness :
    (newNonce hashZ actA 7 60000000000 saltZ 1500000000).token.length = 88
    ∧ (newNonce hashZ actA 7 60000000000 saltZ 1500000000).expiresAt
        = (newNonce hashZ actA 7 60000000000 saltZ 1500000000).createdAt * nsPerSec
          + 60000000000 :=
  ⟨(c5_new_shape hashZ actA 7 60000000000 saltZ 1500000000 (fun s => by simp [hashZ])).1,
   (c5_new_shape hashZ actA 7 60000000000 saltZ 1500000000
     (fun s => by simp [hashZ])).2.2.2.2.2 (by decide)⟩

/-- Claim C6: a blank token (empty or all white space) makes Check, Consume
and CheckThenConsume of both backends return the no-token error, and a
non-blank token of byte length other than 88 makes them return the
invalid-token error; in both cases for every store and table, each returned
untouched, before any storage access. -/
theorem c6_token_shape_errors (token : GoStr) :
    ((∀ c ∈ token, goIsSpace c = true) →
      checkToken token = some Err.noToken
      ∧ ∀ (st : Store) (tbl : Table) (action : GoStr) (uid : Nat) (now : Int) (freshID : Nat),
          inMemCheck st token action uid now = (some Err.noToken, st)
          ∧ inMemConsume st token freshID = (Except.error Err.noToken, st)
          ∧ inMemCheckThenConsume st token action uid now freshID
              = (Except.error Err.noToken, st)
          ∧ sqlxCheck tbl token action uid now = (some Err.noToken, tbl)
          ∧ sqlxConsume tbl token = (Except.error Err.noToken, tbl)
          ∧ sqlxCheckThenConsume tbl token action uid now = (Except.error Err.noToken, tbl))
    ∧ ((¬ ∀ c ∈ token, goIsSpace c = true) → byteLen token ≠ 88 →
      checkToken token = some Err.invalidToken
      ∧ ∀ (st : Store) (tbl : Table) (action : GoStr) (uid : Nat) (now : Int) (freshID : Nat),
          inMemCheck st token action uid now = (some Err.invalidToken, st)
          ∧ inMemConsume st token freshID = (Except.error Err.invalidToken, st)
          ∧ inMemCheckThenConsume st token action uid now freshID
              = (Except.error Err.invalidToken, st)
          ∧ sqlxCheck tbl token action uid now = (some Err.invalidToken, tbl)
          ∧ sqlxConsume tbl token = (Except.error Err.invalidToken, tbl)
          ∧ sqlxCheckThenConsume tbl token action uid now
              = (Except.error Err.invalidToken, tbl)) := by
  constructor
  · intro hb
    have h := checkToken_blank token hb
    exact ⟨h, fun st tbl action uid now freshID =>
      ops_short_circuit token Err.noToken h st tbl action uid now freshID⟩
  · intro hnb h88
    have h := checkToken_nonblank token hnb h88
    exact ⟨h, fun st tbl action uid now freshID =>
      ops_short_circuit token Err.invalidToken h st tbl action uid now freshID⟩

/-- Witness for C6: a one-space token and a one-letter token against the
empty store and table. -/
theorem c6_token_shape_errors_witness :
    checkToken (' ' :: []) = some Err.noToken
    ∧ inMemCheck [] (' ' :: []) actA 7 0 = (some Err.noToken, [])
    ∧ checkToken ('x' :: []) = some Err.invalidToken
    ∧ sqlxConsume [] ('x' :: []) = (Except.error Err.invalidToken, []) :=
  ⟨((c6_token_shape_errors (' ' :: [])).1 (by decide)).1,
   (((c6_token_shape_errors (' ' :: [])).1 (by decide)).2 [] [] actA 7 0 0).1,
   ((c6_token_shape_errors ('x' :: [])).2 (by decide) (by decide)).1,
   (((c6_token_shape_errors ('x' :: [])).2 (by decide) (by decide)).2 [] [] actA 7 0 0).2.2.2.2.1⟩

/-- Unfolding of inMemNew: the saved record and the invalidation pass. -/
theorem inMemNew_eq (hash : Hash) (st : Store) (action : GoStr) (uid : Nat) (d : Int)
    (rawSalt : List Nat) (t : Int) (freshID : Nat) :
    inMemNew hash st action uid d rawSalt t freshID
      = (savedNewNonce hash action uid d rawSalt t freshID,
         invalidateOthers
           (insertStore st (savedNewNonce hash action uid d rawSalt t freshID).token
             (savedNewNonce hash action uid d rawSalt t freshID))
           (savedNewNonce hash action uid d rawSalt t freshID)) := rfl

/-- Unfolding of sqlxNew: the inserted row and the invalidation UPDATE. -/
theorem sqlxNew_eq (hash : Hash) (tbl : Table) (action : GoStr) (uid : Nat) (d : Int)
    (rawSalt : List Nat) (t : Int) (freshID : Nat) :
    sqlxNew hash tbl action uid d rawSalt t freshID
      = (savedNewNonce hash action uid d rawSalt t freshID,
         invalidateRows (tbl ++ [savedNewNonce hash action uid d rawSalt t freshID])
           (savedNewNonce hash action uid d rawSalt t freshID)) := rfl

/-- Field values of the record New persists. -/
theorem savedNewNonce_fields (hash : Hash) (action : GoStr) (uid : Nat) (d : Int)
    (rawSalt : List Nat) (t : Int) (freshID : Nat) :
    (savedNewNonce hash action uid d rawSalt t freshID).isValid = true
    ∧ (savedNewNonce hash action uid d rawSalt t freshID).userID = uid
    ∧ (savedNewNonce hash action uid d rawSalt t freshID).action = action
    ∧ (savedNewNonce hash action uid d rawSalt t freshID).id = freshID :=
  ⟨rfl, rfl, rfl, rfl⟩

/-- Claim C4: Consume, after shape validation, returns token-not-found when
no record holds the token, the used-token error when the record is already
used, and otherwise sets IsUsed, persists the change and returns the updated
record — with no condition whatsoever on the record's action, user, IsValid
or ExpiresAt, so a superseded or expired nonce is consumed all the same. -/
theorem c4_consume_unconditional (st : Store) (tbl : Table) (token : GoStr)
    (freshID : Nat) (n : Nonce) :
    (checkToken token = none → lookupStore st token = none →
        inMemConsume st token freshID = (Except.error Err.tokenNotFound, st))
    ∧ (checkToken token = none → lookupStore st token = some n → n.isUsed = true →
        inMemConsume st token freshID = (Except.error Err.tokenUsed, st))
    ∧ (checkToken token = none → lookupStore st token = some n → n.isUsed = false →
        inMemConsume st token freshID
          = (Except.ok (consumedOf n freshID),
             insertStore st (consumedOf n freshID).token (consumedOf n freshID))
        ∧ (consumedOf n freshID).isUsed = true
        ∧ lookupStore (insertStore st (consumedOf n freshID).token (consumedOf n freshID))
            (consumedOf n freshID).token = some (consumedOf n freshID))
    ∧ (checkToken token = none → sqlSelectByToken tbl token = none →
        sqlxConsume tbl token = (Except.error Err.tokenNotFound, tbl))
    ∧ (checkToken token = none → sqlSelectByToken tbl token = some n → n.isUsed = true →
        sqlxConsume tbl token = (Except.error Err.tokenUsed, tbl))
    ∧ (checkToken token = none → sqlSelectByToken tbl token = some n → n.isUsed = false →
        sqlxConsume tbl token = (Except.ok { n with isUsed := true }, markUsed tbl token)
        ∧ sqlSelectByToken (markUsed tbl token) token = some { n with isUsed := true }) := by
  refine ⟨?_, ?_, ?_, ?_, ?_, ?_⟩
  · intro h1 h2
    unfold inMemConsume getNonce
    rw [h1, h2]
  · intro h1 h2 h3
    unfold inMemConsume getNonce
    rw [h1, h2]
    simp only [h3, if_pos]
  · intro h1 h2 h3
    refine ⟨?_, ?_, ?_⟩
    · unfold inMemConsume getNonce
      rw [h1, h2]
      simp only [h3, Bool.false_eq_true, if_false]
      unfold saveNonce consumedOf
      by_cases hid : n.id = 0 <;> simp [hid]
    · unfold consumedOf
      by_cases hid : n.id = 0 <;> simp [hid]
    · exact lookupStore_insert st _ _
  · intro h1 h2
    unfold sqlxConsume
    rw [h1, h2]
  · intro h1 h2 h3
    unfold sqlxConsume
    rw [h1, h2]
    simp only [h3, if_pos]
  · intro h1 h2 h3
    constructor
    · unfold sqlxConsume
      rw [h1, h2]
      simp only [h3, Bool.false_eq_true, if_false]
    · rw [sqlSelect_markUsed, h2]
      rfl

/-- Witness for C4: consuming a superseded and expired record succeeds, a
used record reports the used-token error, and an absent token reports
token-not-found. -/
theorem c4_consume_unconditional_witness :
    inMemConsume ((tok88, nSuperseded) :: []) tok88 9
      = (Except.ok (consumedOf nSuperseded 9),
         insertStore ((tok88, nSuperseded) :: []) (consumedOf nSuperseded 9).token
           (consumedOf nSuperseded 9))
    ∧ nSuperseded.isValid = false
    ∧ sqlxConsume (nUsed :: []) tok88 = (Except.error Err.tokenUsed, nUsed :: [])
    ∧ inMemConsume [] tok88 9 = (Except.error Err.tokenNotFound, []) :=
  ⟨((c4_consume_unconditional ((tok88, nSuperseded) :: []) [] tok88 9 nSuperseded).2.2.1
      (by decide) (by decide) rfl).1,
   rfl,
   (c4_consume_unconditional [] (nUsed :: []) tok88 9 nUsed).2.2.2.2.1
      (by decide) (by decide) rfl,
   (c4_consume_unconditional [] [] tok88 9 nUsed).1 (by decide) rfl⟩

/-- Claim C8: a sweep run at instant now removes exactly the records whose
ExpiresAt is strictly before now — both backends keep a record whose
ExpiresAt equals or exceeds now — and a subsequent Check on a removed
record's well-shaped token reports token-not-found, not token-expired. -/
theorem c8_sweep_removes_expired (st : Store) (tbl : Table) (now now2 : Int)
    (k : GoStr) (v : Nonce) (r : Nonce) (action : GoStr) (uid : Nat) :
    ((k, v) ∈ removeExpiredStep st now ↔ ((k, v) ∈ st ∧ ¬ v.expiresAt < now))
    ∧ (r ∈ sqlxRemoveExpiredStep tbl now ↔ (r ∈ tbl ∧ ¬ r.expiresAt < now))
    ∧ ((st.map Prod.fst).Nodup → (k, v) ∈ st → v.expiresAt < now → checkToken k = none →
        (inMemCheck (removeExpiredStep st now) k action uid now2).1 = some Err.tokenNotFound)
    ∧ ((tbl.map Nonce.token).Nodup → r ∈ tbl → r.expiresAt < now →
        checkToken r.token = none →
        (sqlxCheck (sqlxRemoveExpiredStep tbl now) r.token action uid now2).1
          = some Err.tokenNotFound) := by
  refine ⟨?_, ?_, ?_, ?_⟩
  · unfold removeExpiredStep
    rw [List.mem_filter]
    simp
  · unfold sqlxRemoveExpiredStep
    rw [List.mem_filter]
    simp
  · intro hnd hmem hexp hct
    have hnone : lookupStore (removeExpiredStep st now) k = none := by
      unfold removeExpiredStep
      exact lookupStore_filter_none st k v _ hnd hmem (by simp [hexp])
    unfold inMemCheck getNonce
    rw [hct, hnone]
  · intro hnd hmem hexp hct
    have hnone : sqlSelectByToken (sqlxRemoveExpiredStep tbl now) r.token = none := by
      unfold sqlxRemoveExpiredStep
      exact sqlSelect_filter_none tbl r _ hnd hmem (by simp [hexp])
    unfold sqlxCheck
    rw [hct, hnone]

/-- Witness for C8: a store and a table holding one record expired at
instant 5; the sweep removes it and Check reports token-not-found. -/
theorem c8_sweep_removes_expired_witness :
    (inMemCheck (removeExpiredStep ((tok88, nOldValid) :: []) 5) tok88 actA 7 5).1
      = some Err.tokenNotFound
    ∧ (sqlxCheck (sqlxRemoveExpiredStep (nOldValid :: []) 5) nOldValid.token actA 7 5).1
      = some Err.tokenNotFound
    ∧ ((tok88, nFresh) ∈ removeExpiredStep ((tok88, nFresh) :: []) 5
        ↔ (((tok88, nFresh) ∈ ((tok88, nFresh) :: [])) ∧ ¬ nFresh.expiresAt < 5)) :=
  ⟨(c8_sweep_removes_expired ((tok88, nOldValid) :: []) [] 5 5 tok88 nOldValid nOldValid
      actA 7).2.2.1 (by decide) (by decide) (by decide) (by decide),
   (c8_sweep_removes_expired [] (nOldValid :: []) 5 5 tok88 nOldValid nOldValid
      actA 7).2.2.2 (by decide) (by decide) (by decide) (by decide),
   (c8_sweep_removes_expired ((tok88, nFresh) :: []) [] 5 5 tok88 nFresh nFresh actA 7).1⟩

/-- Claim C2: once New has completed its invalidation step, the record it
returns is valid and is the only valid record for its (UserID, Action) pair
in either backend; every other previously valid record for the pair has had
IsValid set to false.  The freshness hypotheses say that the id New draws
from uuid.NewV4 does not already occur in the store. -/
theorem c2_single_valid_after_new (hash : Hash) (st : Store) (tbl : Table)
    (action : GoStr) (uid : Nat) (d : Int) (rawSalt : List Nat) (t : Int) (freshID : Nat)
    (n : Nonce) (st2 : Store) (m : Nonce) (tbl2 : Table)
    (hfresh : ∀ e ∈ st, e.2.id ≠ freshID)
    (hres : inMemNew hash st action uid d rawSalt t freshID = (n, st2))
    (hfreshT : ∀ r ∈ tbl, r.id ≠ freshID)
    (hresT : sqlxNew hash tbl action uid d rawSalt t freshID = (m, tbl2)) :
    (n.isValid = true ∧ n.userID = uid ∧ n.action = action ∧ n.id = freshID)
    ∧ (n.token, n) ∈ st2
    ∧ (∀ e ∈ st2, e.2.isValid = true → e.2.userID = uid → e.2.action = action →
        e = (n.token, n))
    ∧ (∀ e ∈ st, e.2.isValid = true → e.2.userID = uid → e.2.action = action →
        e.1 ≠ n.token → (e.1, { e.2 with isValid := false }) ∈ st2)
    ∧ (m.isValid = true ∧ m.userID = uid ∧ m.action = action ∧ m.id = freshID)
    ∧ m ∈ tbl2
    ∧ (∀ r ∈ tbl2, r.isValid = true → r.userID = uid → r.action = action → r = m)
    ∧ (∀ r ∈ tbl, r.isValid = true → r.userID = uid → r.action = action →
        { r with isValid := false } ∈ tbl2) := by
  rw [inMemNew_eq] at hres
  rw [sqlxNew_eq] at hresT
  injection hres with hn hst
  injection hresT with hm htbl
  subst hn
  subst hst
  subst hm
  subst htbl
  refine ⟨savedNewNonce_fields hash action uid d rawSalt t freshID, ?_, ?_, ?_,
    savedNewNonce_fields hash action uid d rawSalt t freshID, ?_, ?_, ?_⟩
  · have hmem1 : ((savedNewNonce hash action uid d rawSalt t freshID).token,
        savedNewNonce hash action uid d rawSalt t freshID)
        ∈ insertStore st (savedNewNonce hash action uid d rawSalt t freshID).token
          (savedNewNonce hash action uid d rawSalt t freshID) := by
      unfold insertStore
      exact List.mem_append_right _ (List.mem_singleton.mpr rfl)
    unfold invalidateOthers
    refine List.mem_map.mpr ⟨_, hmem1, ?_⟩
    rw [if_neg]
    intro hcon
    exact hcon.2.2.2 rfl
  · intro e he hval huid hact
    unfold invalidateOthers at he
    obtain ⟨e0, he0, hfe⟩ := List.mem_map.mp he
    by_cases hc : e0.2.isValid = true
        ∧ e0.2.userID = (savedNewNonce hash action uid d rawSalt t freshID).userID
        ∧ e0.2.action = (savedNewNonce hash action uid d rawSalt t freshID).action
        ∧ e0.2.id ≠ (savedNewNonce hash action uid d rawSalt t freshID).id
    · rw [if_pos hc] at hfe
      rw [← hfe] at hval
      exact absurd hval (by simp)
    · rw [if_neg hc] at hfe
      subst hfe
      rcases (insertStore_mem_iff st _ _ e0).mp he0 with hold | heq
      · exfalso
        apply hc
        exact ⟨hval, huid.trans rfl, hact.trans rfl, hfresh e0 hold.1⟩
      · exact heq
  · intro e he hval huid hact hne
    have hmem1 : e ∈ insertStore st (savedNewNonce hash action uid d rawSalt t freshID).token
        (savedNewNonce hash action uid d rawSalt t freshID) :=
      (insertStore_mem_iff st _ _ e).mpr (Or.inl ⟨he, hne⟩)
    unfold invalidateOthers
    refine List.mem_map.mpr ⟨e, hmem1, ?_⟩
    rw [if_pos ⟨hval, huid.trans rfl, hact.trans rfl, hfresh e he⟩]
  · have hmem1 : savedNewNonce hash action uid d rawSalt t freshID
        ∈ tbl ++ [savedNewNonce hash action uid d rawSalt t freshID] :=
      List.mem_append_right _ (List.mem_singleton.mpr rfl)
    unfold invalidateRows
    refine List.mem_map.mpr ⟨_, hmem1, ?_⟩
    rw [if_neg]
    intro hcon
    exact hcon.2.2.2 rfl
  · intro r hr hval huid hact
    unfold invalidateRows at hr
    obtain ⟨r0, hr0, hfr⟩ := List.mem_map.mp hr
    by_cases hc : r0.isValid = true
        ∧ r0.userID = (savedNewNonce hash action uid d rawSalt t freshID).userID
        ∧ r0.action = (savedNewNonce hash action uid d rawSalt t freshID).action
        ∧ r0.id ≠ (savedNewNonce hash action uid d rawSalt t freshID).id
    · rw [if_pos hc] at hfr
      rw [← hfr] at hval
      exact absurd hval (by simp)
    · rw [if_neg hc] at hfr
      subst hfr
      rcases List.mem_append.mp hr0 with hold | heq
      · exfalso
        apply hc
        exact ⟨hval, huid.trans rfl, hact.trans rfl, hfreshT r0 hold⟩
      · exact List.mem_singleton.mp heq
  · intro r hr hval huid hact
    have hmem1 : r ∈ tbl ++ [savedNewNonce hash action uid d rawSalt t freshID] :=
      List.mem_append_left _ hr
    unfold invalidateRows
    refine List.mem_map.mpr ⟨r, hmem1, ?_⟩
    rw [if_pos ⟨hval, huid.trans rfl, hact.trans rfl, hfreshT r hr⟩]

/-- Witness for C2: a store and table holding one valid record for the pair;
New invalidates it and the new record is the only valid one left. -/
theorem c2_single_valid_after_new_witness :
    ((inMemNew hashZ ((tok88, nOldValid) :: []) actA 7 60000000000 saltZ 1500000000 9).1.token,
      (inMemNew hashZ ((tok88, nOldValid) :: []) actA 7 60000000000 saltZ 1500000000 9).1)
      ∈ (inMemNew hashZ ((tok88, nOldValid) :: []) actA 7 60000000000 saltZ 1500000000 9).2
    ∧ (∀ e ∈ (inMemNew hashZ ((tok88, nOldValid) :: []) actA 7 60000000000 saltZ 1500000000 9).2,
        e.2.isValid = true → e.2.userID = 7 → e.2.action = actA →
        e = ((inMemNew hashZ ((tok88, nOldValid) :: []) actA 7 60000000000 saltZ 1500000000 9).1.token,
             (inMemNew hashZ ((tok88, nOldValid) :: []) actA 7 60000000000 saltZ 1500000000 9).1))
    ∧ (∀ r ∈ (sqlxNew hashZ (nOldValid :: []) actA 7 60000000000 saltZ 1500000000 9).2,
        r.isValid = true → r.userID = 7 → r.action = actA →
        r = (sqlxNew hashZ (nOldValid :: []) actA 7 60000000000 saltZ 1500000000 9).1) :=
  ⟨(c2_single_valid_after_new hashZ ((tok88, nOldValid) :: []) (nOldValid :: []) actA 7
      60000000000 saltZ 1500000000 9 _ _ _ _ (by decide) rfl (by decide) rfl).2.1,
   (c2_single_valid_after_new hashZ ((tok88, nOldValid) :: []) (nOldValid :: []) actA 7
      60000000000 saltZ 1500000000 9 _ _ _ _ (by decide) rfl (by decide) rfl).2.2.1,
   (c2_single_valid_after_new hashZ ((tok88, nOldValid) :: []) (nOldValid :: []) actA 7
      60000000000 saltZ 1500000000 9 _ _ _ _ (by decide) rfl (by decide) rfl).2.2.2.2.2.2.1⟩

/-- Claim C1 (amended): Get of the in-memory service seeds its slice with one
zero-value record, so with no match for the pair it returns that zero record
with no error; with at least one match (each carrying a positive CreatedAt)
it returns the match with the greatest CreatedAt among those with IsValid
true — an invalid newest record is skipped in favour of an older valid one —
and reports token-not-found exactly when no match is valid.  Get of the sqlx
service returns the first row for the pair with is_valid set, in row order,
or token-not-found when there is none. -/
theorem c1_get_newest_valid (st : Store) (tbl : Table) (action : GoStr) (uid : Nat)
    (g : Nonce) (hpos : ∀ n ∈ getMatches st action uid, 0 < n.createdAt) :
    (getMatches st action uid = [] → inMemGet st action uid = Except.ok zeroNonce)
    ∧ ((∀ n ∈ getMatches st action uid, n.isValid = false) →
        getMatches st action uid ≠ [] →
        inMemGet st action uid = Except.error Err.tokenNotFound)
    ∧ (∀ mm ∈ getMatches st action uid, mm.isValid = true →
        ∃ r, inMemGet st action uid = Except.ok r ∧ r ∈ getMatches st action uid
          ∧ r.isValid = true
          ∧ ∀ n2 ∈ getMatches st action uid, n2.isValid = true →
              n2.createdAt ≤ r.createdAt)
    ∧ (tbl.find? (fun r => decide (r.action = action ∧ r.userID = uid ∧ r.isValid = true))
          = none → sqlxGet tbl action uid = Except.error Err.tokenNotFound)
    ∧ (tbl.find? (fun r => decide (r.action = action ∧ r.userID = uid ∧ r.isValid = true))
          = some g → sqlxGet tbl action uid = Except.ok g) := by
  have hsel0 : selNewest ((zeroNonce :: getMatches st action uid).headD zeroNonce)
      (zeroNonce :: getMatches st action uid) = selNewest zeroNonce (getMatches st action uid) := by
    rw [List.headD_cons, selNewest_cons, if_neg]
    intro hcon
    exact absurd hcon.1 (by simp [zeroNonce])
  refine ⟨?_, ?_, ?_, ?_, ?_⟩
  · intro h
    unfold inMemGet
    rw [h]
    rfl
  · intro hinv hne
    unfold inMemGet
    rw [if_neg (by simp), if_neg ?hone, if_pos ?hzed]
    case hone =>
      simp only [List.length_cons]
      intro hcon
      exact hne (List.length_eq_zero.mp (by omega))
    case hzed =>
      rw [hsel0, selNewest_all_invalid _ zeroNonce hinv]
      rfl
  · intro mm hmm hv
    obtain ⟨hsp1, hsp2, hsp3⟩ := selNewest_spec (getMatches st action uid) zeroNonce
    have hmax := hsp3 mm hmm hv
    have hrv : selNewest zeroNonce (getMatches st action uid) ∈ getMatches st action uid
        ∧ (selNewest zeroNonce (getMatches st action uid)).isValid = true := by
      rcases hsp2 with hz | hg
      · exfalso
        have hm0 := hpos mm hmm
        rw [hz] at hmax
        have : (zeroNonce : Nonce).createdAt = 0 := rfl
        omega
      · exact hg
    refine ⟨selNewest zeroNonce (getMatches st action uid), ?_, hrv.1, hrv.2, ?_⟩
    · unfold inMemGet
      rw [if_neg (by simp), if_neg ?hone2, if_neg ?hval2, hsel0]
      case hone2 =>
        simp only [List.length_cons]
        intro hcon
        have hlen0 : getMatches st action uid = [] := List.length_eq_zero.mp (by omega)
        rw [hlen0] at hmm
        exact absurd hmm (List.not_mem_nil mm)
      case hval2 =>
        rw [hsel0, hrv.2]
        simp
    · intro n2 hn2 hv2
      exact hsp3 n2 hn2 hv2
  · intro hfind
    unfold sqlxGet
    rw [filter_head_eq_find, hfind]
  · intro hfind
    unfold sqlxGet
    rw [filter_head_eq_find, hfind]

/-- Counterexample to C1 as stated: on the empty store Get returns the
zero-value record with no error instead of token-not-found (the slice is
seeded with one zero element, so the none branch is unreachable); with a
valid older record and an invalid newer record it returns the older valid
record instead of token-not-found; and the sqlx Get with two valid rows
returns the first row, not the one with the greatest CreatedAt. -/
theorem c1_counterexample :
    inMemGet [] actA 7 = Except.ok zeroNonce
    ∧ ¬ inMemGet [] actA 7 = Except.error Err.tokenNotFound
    ∧ inMemGet ((tok88, nOldValid) :: (tok88b, nNewInvalid) :: []) actA 7
        = Except.ok nOldValid
    ∧ sqlxGet (nOldValid :: nNewValid :: []) actA 7 = Except.ok nOldValid
    ∧ nOldValid.createdAt < nNewValid.createdAt
    ∧ nNewValid.isValid = true := by
  refine ⟨rfl, ?_, rfl, rfl, by decide, rfl⟩
  intro h
  have hok : inMemGet [] actA 7 = Except.ok zeroNonce := rfl
  rw [hok] at h
  exact Except.noConfusion h

/-- Witness for C1 on concrete stores: the empty store, an all-invalid
match list, a mixed match list, and the empty table. -/
theorem c1_get_newest_valid_witness :
    inMemGet [] actA 7 = Except.ok zeroNonce
    ∧ inMemGet ((tok88, nSuperseded) :: []) actA 7 = Except.error Err.tokenNotFound
    ∧ (∃ r, inMemGet ((tok88, nOldValid) :: (tok88b, nNewInvalid) :: []) actA 7
          = Except.ok r
        ∧ r ∈ getMatches ((tok88, nOldValid) :: (tok88b, nNewInvalid) :: []) actA 7
        ∧ r.isValid = true
        ∧ ∀ n2 ∈ getMatches ((tok88, nOldValid) :: (tok88b, nNewInvalid) :: []) actA 7,
            n2.isValid = true → n2.createdAt ≤ r.createdAt)
    ∧ sqlxGet [] actA 7 = Except.error Err.tokenNotFound :=
  ⟨(c1_get_newest_valid [] [] actA 7 zeroNonce (by decide)).1 rfl,
   (c1_get_newest_valid ((tok88, nSuperseded) :: []) [] actA 7 zeroNonce
      (by decide)).2.1 (by decide) (by decide),
   (c1_get_newest_valid ((tok88, nOldValid) :: (tok88b, nNewInvalid) :: []) [] actA 7
      zeroNonce (by decide)).2.2.1 nOldValid (by decide) rfl,
   (c1_get_newest_valid [] [] actA 7 zeroNonce (by decide)).2.2.2.1 rfl⟩

end GoNonce
